import Mathlib

/-!
# Verification of the DebAItor server (room state machine, scoring, analytics, interview engine)

Shallow embedding of the JavaScript sources:
* `src/server.js`   — room lifecycle handlers, scoring, analytics
* `src/prompts/engine.js` — interview session engine

Conventions of the embedding:
* JavaScript numbers that carry exact decimal weights and scores are modelled as `ℚ`;
  `Math.round` is modelled as `jsRound` (round half toward positive infinity, which
  agrees with `Math.round` on the non-negative values arising here).
* `Math.sqrt` (a call into the host float library) is abstracted as a function
  parameter `sqrtFn : ℚ → ℚ`; theorems that depend on it hypothesise that it is
  a square root at the relevant argument.
* The insertion-ordered JS `Map` of participants is an association list.
* JS `null`/`undefined` are both modelled as `Option.none`.
* Wall-clock fields (`createdAt`, `submittedAt`, `joinedAt`, `timeLimit`) and
  display-only fields (mode labels, summary/fact-check text on scores) are omitted:
  no handler's control flow reads them.
-/

namespace DebAItor

/-- JavaScript `Math.round` on `ℚ`: round half toward positive infinity. -/
def jsRound (x : ℚ) : ℤ := ⌊x + 1/2⌋

/-- `Math.round(x * 10) / 10` — round to one decimal, as in `calculateFinalScore`. -/
def round1 (x : ℚ) : ℚ := (jsRound (x * 10) : ℚ) / 10

/-- The four per-dimension scores returned by the evaluator (`logic`, `clarity`,
`relevance`, `emotionalBias`), each nominally in `[1,10]`. -/
structure EvalScores where
  logic : ℚ
  clarity : ℚ
  relevance : ℚ
  emotionalBias : ℚ
deriving DecidableEq

/-- A per-mode weight vector, as in the `MODE_WEIGHTS` table of `server.js`. -/
structure Weights where
  logic : ℚ
  clarity : ℚ
  relevance : ℚ
  emotionalBias : ℚ
deriving DecidableEq

/-- `MODE_WEIGHTS.debate` -/
def debateWeights : Weights := ⟨35/100, 20/100, 30/100, 15/100⟩

/-- `MODE_WEIGHTS.classroom` -/
def classroomWeights : Weights := ⟨20/100, 35/100, 35/100, 10/100⟩

/-- `MODE_WEIGHTS.panel` -/
def panelWeights : Weights := ⟨30/100, 25/100, 25/100, 20/100⟩

/-- `MODE_WEIGHTS.meeting` -/
def meetingWeights : Weights := ⟨25/100, 30/100, 35/100, 10/100⟩

/-- `VALID_MODES` from `server.js`. -/
def VALID_MODES : List String := ["debate", "classroom", "panel", "meeting"]

/-- Property lookup `MODE_WEIGHTS[mode]`: `none` for unknown keys. -/
def MODE_WEIGHTS (mode : String) : Option Weights :=
  if mode = "debate" then some debateWeights
  else if mode = "classroom" then some classroomWeights
  else if mode = "panel" then some panelWeights
  else if mode = "meeting" then some meetingWeights
  else none

/-- `calculateFinalScore(scores, mode)` from `server.js`:
`Math.round(((logic*w.logic)+(clarity*w.clarity)+(relevance*w.relevance)+((10-emotionalBias)*w.emotionalBias))*10)/10`
with `w = MODE_WEIGHTS[mode] || MODE_WEIGHTS.debate`. -/
def calculateFinalScore (scores : EvalScores) (mode : String) : ℚ :=
  let w := (MODE_WEIGHTS mode).getD debateWeights
  round1 (scores.logic * w.logic + scores.clarity * w.clarity +
    scores.relevance * w.relevance + (10 - scores.emotionalBias) * w.emotionalBias)

/-- Modelled from the spec (section 4.1), for comparison with `calculateFinalScore`:
"weighted sum `logic·w.logic + clarity·w.clarity + relevance·w.relevance +
(10 − emotionalBias)·w.emotionalBias`", with the spec's weight table
(debate .35/.20/.30/.15, classroom .20/.35/.35/.10, panel .30/.25/.25/.20,
meeting .25/.30/.35/.10), "unknown mode falls back to debate weights",
"rounded to one decimal". -/
def specFinalScore (scores : EvalScores) (mode : String) : ℚ :=
  let w : Weights :=
    if mode = "classroom" then ⟨20/100, 35/100, 35/100, 10/100⟩
    else if mode = "panel" then ⟨30/100, 25/100, 25/100, 20/100⟩
    else if mode = "meeting" then ⟨25/100, 30/100, 35/100, 10/100⟩
    else ⟨35/100, 20/100, 30/100, 15/100⟩
  round1 (scores.logic * w.logic + scores.clarity * w.clarity +
    scores.relevance * w.relevance + (10 - scores.emotionalBias) * w.emotionalBias)

theorem round1_mono {x y : ℚ} (h : x ≤ y) : round1 x ≤ round1 y := by
  unfold round1 jsRound
  have : (⌊x * 10 + 1/2⌋ : ℤ) ≤ ⌊y * 10 + 1/2⌋ := Int.floor_le_floor (by linarith)
  have h2 : ((⌊x * 10 + 1/2⌋ : ℤ) : ℚ) ≤ ((⌊y * 10 + 1/2⌋ : ℤ) : ℚ) := by exact_mod_cast this
  linarith

theorem round1_lower {x : ℚ} (h : 4/5 ≤ x) : 4/5 ≤ round1 x := by
  unfold round1 jsRound
  have h8 : (8 : ℤ) ≤ ⌊x * 10 + 1/2⌋ := Int.le_floor.mpr (by push_cast; linarith)
  have h8q : (8 : ℚ) ≤ ((⌊x * 10 + 1/2⌋ : ℤ) : ℚ) := by exact_mod_cast h8
  linarith

theorem round1_upper {x : ℚ} (h : x ≤ 10) : round1 x ≤ 10 := by
  unfold round1 jsRound
  have h100 : (⌊x * 10 + 1/2⌋ : ℤ) ≤ 100 := by
    have hlt : x * 10 + 1/2 < (101 : ℚ) := by linarith
    have := Int.floor_le_floor (α := ℚ) (le_of_lt hlt)
    have h101 : (⌊(101 : ℚ)⌋ : ℤ) = 101 := by norm_num
    have hle : (⌊x * 10 + 1/2⌋ : ℤ) ≤ 101 := by rw [h101] at this; exact this
    by_contra hgt
    push_neg at hgt
    have h101' : (101 : ℤ) ≤ ⌊x * 10 + 1/2⌋ := by omega
    have : ((101 : ℤ) : ℚ) ≤ x * 10 + 1/2 := Int.le_floor.mp h101'
    push_cast at this
    linarith
  have h100q : ((⌊x * 10 + 1/2⌋ : ℤ) : ℚ) ≤ 100 := by exact_mod_cast h100
  linarith

/-! ## Analytics (the `/api/rooms/:code/analytics` balance score)

The endpoint gathers the per-participant submission counts, then computes
`mean`, population `variance`, `stdDev = Math.sqrt(variance)`,
`cv = Math.min(stdDev / mean, 1)` and `balanceScore = Math.round((1 - cv) * 100)`
when `participantCount > 1 && totalArguments > 0`; it returns `0` for an empty
room (early return) and when `totalArguments === 0`, and leaves the initial
value `100` otherwise. `Math.sqrt` is abstracted as the parameter `sqrtFn`. -/

/-- Mean of the per-participant argument counts (`totalArguments / participantCount`). -/
def meanOf (counts : List ℕ) : ℚ := (counts.sum : ℚ) / counts.length

/-- Population variance of the argument counts, as in the analytics handler. -/
def varianceOf (counts : List ℕ) : ℚ :=
  (counts.map (fun c => ((c : ℚ) - meanOf counts) ^ 2)).sum / counts.length

/-- The analytics handler's `balanceScore`, parameterised by the host square-root
function (`Math.sqrt`). `counts` is the list of `responses.length` per participant,
in participant-map order. -/
def analyticsBalanceScore (sqrtFn : ℚ → ℚ) (counts : List ℕ) : ℤ :=
  if counts.length = 0 then 0
  else if 1 < counts.length ∧ 0 < counts.sum then
    let stdDev := sqrtFn (varianceOf counts)
    let cv := min (stdDev / meanOf counts) 1
    jsRound ((1 - cv) * 100)
  else if counts.sum = 0 then 0
  else 100

/-! ## Room data model and state-machine handlers (memory-storage mode)

The handlers below are the `app.post('/api/rooms/:code/...')` routes of
`server.js`, in the in-memory storage mode (`USE_FIRESTORE = false`), which the
spec designates as authoritative for read-after-write. Each handler is a pure
function from the loaded room (the room-code lookup and its 404 are outside the
per-room transition) to `Except` of an HTTP error response or the updated room.
External I/O of the submit route (audio upload, transcription, evaluation) is
abstracted: the resulting transcript and scores are parameters. -/

/-- An HTTP error response: status code and `error` message. -/
structure ErrResp where
  status : ℕ
  msg : String
deriving DecidableEq

/-- One submitted response (`argumentData` in the submit route): omits
`submittedAt` (wall clock). -/
structure Response where
  round : ℕ
  transcript : String
  scores : EvalScores
deriving DecidableEq

/-- A participant record (name plus ordered responses). -/
structure Participant where
  name : String
  responses : List Response
deriving DecidableEq

/-- A room, as created by `POST /api/rooms`. The participants `Map` is an
insertion-ordered association list. -/
structure Room where
  topic : String
  mode : String
  hostId : String
  participants : List (String × Participant)
  currentTurn : Option String
  turnOrder : List String
  raisedHands : List String
  currentRound : ℕ
  status : String
  locked : Bool
deriving DecidableEq

/-- `Map.prototype.get`: the first (and, absent key duplication, only) entry
with the given key. -/
def mapGet (m : List (String × Participant)) (k : String) : Option Participant :=
  match m with
  | [] => none
  | kv :: rest => if kv.1 = k then some kv.2 else mapGet rest k

/-- `Map.prototype.set`: replace in place if the key exists, else append. -/
def mapSet (m : List (String × Participant)) (k : String) (v : Participant) :
    List (String × Participant) :=
  if m.any (fun kv => kv.1 = k) then
    m.map (fun kv => if kv.1 = k then (k, v) else kv)
  else m ++ [(k, v)]

/-- `Map.prototype.delete`. -/
def mapDelete (m : List (String × Participant)) (k : String) :
    List (String × Participant) :=
  m.filter (fun kv => kv.1 ≠ k)

/-- `Array.prototype.indexOf` applied to `turnOrder` and the (nullable)
`currentTurn`: `-1` when the value is `null` or absent. -/
def jsIndexOf (xs : List String) (x : Option String) : ℤ :=
  match x with
  | none => -1
  | some v => if v ∈ xs then (xs.indexOf v : ℤ) else -1

/-- The fresh room built by `POST /api/rooms` (code/host id generation is
outside the state machine; invalid modes fall back to `'debate'`). -/
def createRoomState (topic mode hostId : String) : Room :=
  { topic := topic
    mode := if mode ∈ VALID_MODES then mode else "debate"
    hostId := hostId
    participants := []
    currentTurn := none
    turnOrder := []
    raisedHands := []
    currentRound := 0
    status := "waiting"
    locked := false }

/-- Strip leading and trailing whitespace from a character list. -/
def trimChars (cs : List Char) : List Char :=
  ((cs.dropWhile Char.isWhitespace).reverse.dropWhile Char.isWhitespace).reverse

/-- JavaScript `String.prototype.trim`, modelled structurally on the string's
characters (so that it evaluates inside the kernel). -/
def jsTrim (s : String) : String := ⟨trimChars s.data⟩

/-- `verifyHost(room, hostId)`: exact equality with the room's host id; the
caller's id is `none` when the request body carries none. -/
def verifyHost (r : Room) (callerHostId : Option String) : Bool :=
  callerHostId = some r.hostId

/-- `POST /api/rooms/:code/join`. -/
def joinRoom (r : Room) (pid name : String) : Except ErrResp Room :=
  if jsTrim name = "" then .error ⟨400, "Name is required"⟩
  else if r.status = "ended" ∨ r.status = "results" then .error ⟨400, "Debate has ended"⟩
  else if r.locked then .error ⟨403, "Room is locked. No new participants allowed."⟩
  else .ok { r with
    participants := mapSet r.participants pid ⟨jsTrim name, []⟩
    turnOrder := r.turnOrder ++ [pid] }

/-- `POST /api/rooms/:code/lock` (host-checked; `locked = lock !== false`). -/
def lockRoom (r : Room) (callerHostId : Option String) (lockReq : Option Bool) :
    Except ErrResp Room :=
  if ¬ verifyHost r callerHostId then .error ⟨403, "Unauthorized. Host access required."⟩
  else .ok { r with locked := lockReq ≠ some false }

/-- `POST /api/rooms/:code/remove-participant` (host-checked). -/
def removeParticipant (r : Room) (callerHostId : Option String) (pid : String) :
    Except ErrResp Room :=
  if ¬ verifyHost r callerHostId then .error ⟨403, "Unauthorized. Host access required."⟩
  else match mapGet r.participants pid with
    | none => .error ⟨404, "Participant not found"⟩
    | some _ =>
      let newOrder := r.turnOrder.filter (fun id => id ≠ pid)
      .ok { r with
        participants := mapDelete r.participants pid
        turnOrder := newOrder
        currentTurn := if r.currentTurn = some pid then newOrder.head? else r.currentTurn }

/-- `POST /api/rooms/:code/start`. The handler reads nothing from the request
body: `callerHostId` records what an (arbitrary) caller presented, and is not
consulted — there is no host verification on this route. -/
def startRoom (r : Room) (_callerHostId : Option String) : Except ErrResp Room :=
  if r.turnOrder = [] then .error ⟨400, "No participants yet"⟩
  else .ok { r with
    status := "collecting"
    currentRound := 1
    currentTurn := r.turnOrder.head? }

/-- `POST /api/rooms/:code/next-turn`. No host verification is performed.
`turnOrder[0]` on an empty array is `undefined`, modelled as `none`. -/
def nextTurn (r : Room) (_callerHostId : Option String) : Except ErrResp Room :=
  if r.status ≠ "collecting" then
    .error ⟨400, "Debate not active. Current state: " ++ r.status⟩
  else
    let nextIndex : ℤ := jsIndexOf r.turnOrder r.currentTurn + 1
    let wraps : Bool := nextIndex ≥ (r.turnOrder.length : ℤ)
    let newRound : ℕ := if wraps then r.currentRound + 1 else r.currentRound
    let newTurn : Option String :=
      if wraps then r.turnOrder.head? else r.turnOrder[nextIndex.toNat]?
    let newRH : List String :=
      match newTurn with
      | some t => r.raisedHands.filter (fun id => id ≠ t)
      | none => r.raisedHands
    .ok { r with currentRound := newRound, currentTurn := newTurn, raisedHands := newRH }

/-- `POST /api/rooms/:code/assign-turn`. No host verification is performed. -/
def assignTurn (r : Room) (_callerHostId : Option String) (pid : String) :
    Except ErrResp Room :=
  if r.status ≠ "collecting" then
    .error ⟨400, "Debate not active. Current state: " ++ r.status⟩
  else if (mapGet r.participants pid).isNone then .error ⟨404, "Participant not found"⟩
  else .ok { r with
    currentTurn := some pid
    raisedHands := r.raisedHands.filter (fun id => id ≠ pid) }

/-- `POST /api/rooms/:code/raise-hand` (idempotent add while collecting). -/
def raiseHand (r : Room) (pid : String) : Except ErrResp Room :=
  if r.status ≠ "collecting" then .error ⟨400, "Not collecting context"⟩
  else if pid ∈ r.raisedHands then .ok r
  else .ok { r with raisedHands := r.raisedHands ++ [pid] }

/-- `POST /api/rooms/:code/lower-hand` (no status or host check). -/
def lowerHand (r : Room) (pid : String) : Except ErrResp Room :=
  .ok { r with raisedHands := r.raisedHands.filter (fun id => id ≠ pid) }

/-- `POST /api/rooms/:code/end`: net room-state effect of the route (status
`evaluating` then `results`, `currentTurn` cleared); the computed report is
derived output and mutates no room field. No host verification, no status
precondition. -/
def endRoom (r : Room) (_callerHostId : Option String) : Except ErrResp Room :=
  .ok { r with status := "results", currentTurn := none }

/-- `POST /api/rooms/:code/submit` with the transcription/evaluation
collaborators abstracted into the `transcript` and `scores` arguments. -/
def submitRoom (r : Room) (pid transcript : String) (scores : EvalScores) :
    Except ErrResp Room :=
  if r.status ≠ "collecting" then .error ⟨400, "Debate not in progress"⟩
  else if r.currentTurn ≠ some pid then .error ⟨400, "Not your turn"⟩
  else match mapGet r.participants pid with
    | none => .error ⟨404, "Participant not found"⟩
    | some p => .ok { r with
        participants := mapSet r.participants pid
          { p with responses := p.responses ++ [⟨r.currentRound, transcript, scores⟩] } }

/-- One client-visible operation on a room. -/
inductive RoomOp where
  | join (pid name : String)
  | lock (callerHostId : Option String) (lockReq : Option Bool)
  | removeP (callerHostId : Option String) (pid : String)
  | start (callerHostId : Option String)
  | next (callerHostId : Option String)
  | assign (callerHostId : Option String) (pid : String)
  | raise (pid : String)
  | lower (pid : String)
  | finish (callerHostId : Option String)
  | submit (pid transcript : String) (scores : EvalScores)
deriving DecidableEq

/-- Dispatch an operation to its handler. -/
def roomHandler (r : Room) : RoomOp → Except ErrResp Room
  | .join pid name => joinRoom r pid name
  | .lock h lk => lockRoom r h lk
  | .removeP h pid => removeParticipant r h pid
  | .start h => startRoom r h
  | .next h => nextTurn r h
  | .assign h pid => assignTurn r h pid
  | .raise pid => raiseHand r pid
  | .lower pid => lowerHand r pid
  | .finish h => endRoom r h
  | .submit pid t sc => submitRoom r pid t sc

/-- A rejected request leaves the room unchanged; an accepted one installs the
updated room (the memory cache write). -/
def applyRoomOp (r : Room) (op : RoomOp) : Room :=
  match roomHandler r op with
  | .ok r2 => r2
  | .error _ => r

/-- Run a sequence of operations. -/
def applyRoomOps (r : Room) (ops : List RoomOp) : Room :=
  ops.foldl applyRoomOp r

/-- The room invariant of claim C5: `currentTurn` is null or a member of
`turnOrder`. -/
def turnInv (r : Room) : Bool :=
  match r.currentTurn with
  | none => true
  | some t => r.turnOrder.contains t

/-- Is the operation one of join / remove-participant / next-turn? -/
def isJRN : RoomOp → Bool
  | .join _ _ => true
  | .removeP _ _ => true
  | .next _ => true
  | _ => false

/-- Is the operation `start`? -/
def isStart : RoomOp → Bool
  | .start _ => true
  | _ => false

/-- Is the operation `next-turn`? -/
def isNext : RoomOp → Bool
  | .next _ => true
  | _ => false

/-- The exact condition under which a `next-turn` call increments
`currentRound`: the debate is collecting and the index after the current one
falls past the end of `turnOrder`. -/
def nextWraps (r : Room) : Bool :=
  r.status = "collecting" ∧ jsIndexOf r.turnOrder r.currentTurn + 1 ≥ (r.turnOrder.length : ℤ)

/-! ## Interview session engine (`src/prompts/engine.js` and the
`/api/interview/*` routes)

`id` and `createdAt` are omitted (opaque key and wall clock); the
text-generation / transcription / summarization collaborators are abstracted:
the transcript, the summarizer's output (or `none` in mock mode or on an empty
or failed summarization), and the generated next question are parameters. -/

/-- A chat message `{ role, content }`. -/
structure ChatMsg where
  role : String
  content : String
deriving DecidableEq

/-- An interview session, from `createSession` in `engine.js`. -/
structure Session where
  role : String
  focus : String
  difficulty : String
  systemPrompt : String
  messages : List ChatMsg
  fullTranscript : List ChatMsg
  conversationSummary : Option String
  questionCount : ℕ
  status : String
deriving DecidableEq

/-- `MAX_QUESTIONS` from `engine.js`. -/
def MAX_QUESTIONS : ℕ := 8

/-- `createSession(sessionId, config)`; the derived system prompt is a
parameter (its text is produced by `buildInterviewSystemPrompt`). -/
def createSession (role focus difficulty systemPrompt : String) : Session :=
  { role := role
    focus := focus
    difficulty := difficulty
    systemPrompt := systemPrompt
    messages := []
    fullTranscript := []
    conversationSummary := none
    questionCount := 0
    status := "active" }

/-- `addUserMessage(session, transcript)`. -/
def addUserMessage (s : Session) (transcript : String) : Session :=
  { s with
    messages := s.messages ++ [⟨"user", transcript⟩]
    fullTranscript := s.fullTranscript ++ [⟨"user", transcript⟩] }

/-- `addAssistantMessage(session, question)`: append, bump `questionCount`,
flip to `complete` at `MAX_QUESTIONS`. -/
def addAssistantMessage (s : Session) (question : String) : Session :=
  let s2 : Session := { s with
    messages := s.messages ++ [⟨"assistant", question⟩]
    fullTranscript := s.fullTranscript ++ [⟨"assistant", question⟩]
    questionCount := s.questionCount + 1 }
  if s2.questionCount ≥ MAX_QUESTIONS then { s2 with status := "complete" } else s2

/-- `shouldSummarize(session)`: more than 3 exchanges held raw. -/
def shouldSummarize (s : Session) : Bool := s.messages.length > 6

/-- `Array.prototype.slice(-6)`: the last six entries (all of them when there
are at most six). -/
def sliceLastSix (xs : List ChatMsg) : List ChatMsg := xs.drop (xs.length - 6)

/-- `buildMessagePayload(session)`: system prompt, optional summary message,
then the last 3 exchanges (at most 6 raw messages). -/
def buildMessagePayload (s : Session) : List ChatMsg :=
  [⟨"system", s.systemPrompt⟩]
    ++ (match s.conversationSummary with
        | some summary =>
          [⟨"system", "CONVERSATION SUMMARY (earlier exchanges):\n" ++ summary⟩]
        | none => [])
    ++ sliceLastSix s.messages

/-- `applySummarization(session, summary)`: replace the stored summary and trim
the raw buffer to the last 6 messages; `fullTranscript` is untouched. -/
def applySummarization (s : Session) (summary : String) : Session :=
  { s with
    conversationSummary := some summary
    messages := sliceLastSix s.messages }

/-- The session mutation performed by `POST /api/interview/respond` (both the
mock and the streaming branch): early-return when already complete; record the
answer; apply summarization when triggered and the summarizer produced text
(`summaryResult = none` covers mock mode, an absent payload and a failed or
empty summarization); stop at the question limit; otherwise record the next
generated question. -/
def interviewRespond (s : Session) (transcript : String) (summaryResult : Option String)
    (nextQuestion : String) : Session :=
  if s.status = "complete" then s
  else
    let s1 := addUserMessage s transcript
    let s2 :=
      if shouldSummarize s1 then
        match summaryResult with
        | some summary => applySummarization s1 summary
        | none => s1
      else s1
    if s2.questionCount ≥ MAX_QUESTIONS then { s2 with status := "complete" }
    else addAssistantMessage s2 nextQuestion

/-- The session produced by `POST /api/interview/start`: a fresh session whose
first interviewer question has been recorded. -/
def interviewStart (role focus difficulty systemPrompt firstQuestion : String) : Session :=
  addAssistantMessage (createSession role focus difficulty systemPrompt) firstQuestion

/-- The inputs of one `respond` call that the collaborators supply. -/
structure RespondStep where
  transcript : String
  summaryResult : Option String
  nextQuestion : String
deriving DecidableEq

/-- Run a sequence of `respond` calls. -/
def runInterview (s : Session) (steps : List RespondStep) : Session :=
  steps.foldl (fun acc st => interviewRespond acc st.transcript st.summaryResult st.nextQuestion) s

/-- Number of interviewer (assistant) messages in a transcript. -/
def assistantCount (msgs : List ChatMsg) : ℕ :=
  msgs.countP (fun m => m.role = "assistant")

/-- One raw call into the engine's mutators (the granularity of
`engine.js`). -/
inductive EngineOp where
  | user (transcript : String)
  | assistant (question : String)
  | summarize (summary : String)
deriving DecidableEq

/-- Apply one engine call. -/
def applyEngineOp (s : Session) : EngineOp → Session
  | .user t => addUserMessage s t
  | .assistant q => addAssistantMessage s q
  | .summarize sm => applySummarization s sm

/-- Run a sequence of engine calls. -/
def runEngineOps (s : Session) (ops : List EngineOp) : Session :=
  ops.foldl applyEngineOp s

/-- Is the engine call an `addUserMessage`? -/
def isUserOp : EngineOp → Bool
  | .user _ => true
  | _ => false

/-- Is the engine call an `addAssistantMessage`? -/
def isAssistantOp : EngineOp → Bool
  | .assistant _ => true
  | _ => false

instance {ε α : Type} [DecidableEq ε] [DecidableEq α] : DecidableEq (Except ε α) := fun a b =>
  match a, b with
  | .ok x, .ok y =>
    if h : x = y then .isTrue (by rw [h]) else .isFalse (fun hc => h (Except.ok.inj hc))
  | .error x, .error y =>
    if h : x = y then .isTrue (by rw [h]) else .isFalse (fun hc => h (Except.error.inj hc))
  | .ok _, .error _ => .isFalse (fun hc => Except.noConfusion hc)
  | .error _, .ok _ => .isFalse (fun hc => Except.noConfusion hc)

/-! ## Association-list lemmas for the participants map -/

theorem mapGet_mapSet_self (m : List (String × Participant)) (k : String) (v : Participant) :
    mapGet (mapSet m k v) k = some v := by
  by_cases hany : m.any (fun kv => kv.1 = k)
  · unfold mapSet
    rw [if_pos hany]
    induction m with
    | nil => simp at hany
    | cons kv rest ih =>
      by_cases hk : kv.1 = k
      · simp [mapGet, hk]
      · simp only [List.any_cons, Bool.or_eq_true, decide_eq_true_eq] at hany
        rcases hany with hany | hany
        · exact absurd hany hk
        · simp only [List.map_cons, if_neg hk]
          simpa [mapGet, hk] using ih hany
  · unfold mapSet
    rw [if_neg hany]
    induction m with
    | nil => simp [mapGet]
    | cons kv rest ih =>
      simp only [List.any_cons, Bool.or_eq_true, decide_eq_true_eq, not_or] at hany
      simp only [List.cons_append, mapGet, if_neg hany.1]
      exact ih (by simpa using hany.2)

theorem mapGet_map_replace (m : List (String × Participant)) (k q : String) (v : Participant)
    (hq : q ≠ k) :
    mapGet (m.map (fun kv => if kv.1 = k then (k, v) else kv)) q = mapGet m q := by
  induction m with
  | nil => rfl
  | cons kv rest ih =>
    by_cases hk : kv.1 = k
    · have hkq : ¬ ((k, v).1 = q) := fun hc => hq hc.symm
      have hkvq : ¬ (kv.1 = q) := by rw [hk]; exact fun hc => hq hc.symm
      simp only [List.map_cons, if_pos hk, mapGet, if_neg hkq, if_neg hkvq]
      exact ih
    · simp only [List.map_cons, if_neg hk, mapGet]
      by_cases hkv : kv.1 = q
      · rw [if_pos hkv, if_pos hkv]
      · rw [if_neg hkv, if_neg hkv]
        exact ih

theorem mapGet_append_single (m : List (String × Participant)) (k q : String) (v : Participant)
    (hq : q ≠ k) : mapGet (m ++ [(k, v)]) q = mapGet m q := by
  induction m with
  | nil =>
    have hkq : ¬ ((k, v).1 = q) := fun hc => hq hc.symm
    simp [mapGet, hkq]
  | cons kv rest ih =>
    simp only [List.cons_append, mapGet]
    by_cases hkv : kv.1 = q
    · rw [if_pos hkv, if_pos hkv]
    · rw [if_neg hkv, if_neg hkv]
      exact ih

theorem mapGet_mapSet_other (m : List (String × Participant)) (k q : String) (v : Participant)
    (hq : q ≠ k) : mapGet (mapSet m k v) q = mapGet m q := by
  unfold mapSet
  by_cases hany : m.any (fun kv => kv.1 = k)
  · rw [if_pos hany]
    exact mapGet_map_replace m k q v hq
  · rw [if_neg hany]
    exact mapGet_append_single m k q v hq

/-! ## Concrete fixtures used by witnesses and counterexamples -/

/-- A sample evaluator output. -/
def demoScores : EvalScores := ⟨7, 6, 8, 3⟩

/-- A waiting two-participant room. -/
def demoWaitingRoom : Room :=
  { topic := "AI ethics"
    mode := "classroom"
    hostId := "host-secret"
    participants := [("A", ⟨"Alice", []⟩), ("B", ⟨"Bob", []⟩)]
    currentTurn := none
    turnOrder := ["A", "B"]
    raisedHands := []
    currentRound := 0
    status := "waiting"
    locked := false }

/-- The same room once collecting, Alice's turn. -/
def demoCollectingRoom : Room :=
  { demoWaitingRoom with status := "collecting", currentRound := 1, currentTurn := some "A" }

/-- `demoCollectingRoom` after Alice's first accepted submission. -/
def demoSubmittedRoom : Room :=
  { demoCollectingRoom with
    participants := [("A", ⟨"Alice", [⟨1, "first point", demoScores⟩]⟩), ("B", ⟨"Bob", []⟩)] }

/-- A waiting room with a single participant. -/
def demoSoloRoom : Room :=
  { topic := "solo topic"
    mode := "debate"
    hostId := "solo-host"
    participants := [("P", ⟨"Pat", []⟩)]
    currentTurn := none
    turnOrder := ["P"]
    raisedHands := []
    currentRound := 0
    status := "waiting"
    locked := false }

/-! ## Scoring-engine lemmas -/

theorem modeWeights_getD_cases (mode : String) :
    (MODE_WEIGHTS mode).getD debateWeights = debateWeights ∨
    (MODE_WEIGHTS mode).getD debateWeights = classroomWeights ∨
    (MODE_WEIGHTS mode).getD debateWeights = panelWeights ∨
    (MODE_WEIGHTS mode).getD debateWeights = meetingWeights := by
  unfold MODE_WEIGHTS
  split_ifs <;> simp

theorem weighted_sum_bounds (s : EvalScores) (w : Weights)
    (hw : w = debateWeights ∨ w = classroomWeights ∨ w = panelWeights ∨ w = meetingWeights)
    (h1 : 1 ≤ s.logic) (h2 : s.logic ≤ 10) (h3 : 1 ≤ s.clarity) (h4 : s.clarity ≤ 10)
    (h5 : 1 ≤ s.relevance) (h6 : s.relevance ≤ 10)
    (h7 : 1 ≤ s.emotionalBias) (h8 : s.emotionalBias ≤ 10) :
    4/5 ≤ s.logic * w.logic + s.clarity * w.clarity + s.relevance * w.relevance +
        (10 - s.emotionalBias) * w.emotionalBias
    ∧ s.logic * w.logic + s.clarity * w.clarity + s.relevance * w.relevance +
        (10 - s.emotionalBias) * w.emotionalBias ≤ 10 := by
  rcases hw with hw | hw | hw | hw <;> subst hw <;>
    simp only [debateWeights, classroomWeights, panelWeights, meetingWeights] <;>
    exact ⟨by linarith, by linarith⟩

/-- C2 (counterexample): with every dimension inside `[1,10]`
(`logic = clarity = relevance = 1`, `emotionalBias = 10`) and mode `panel`,
`calculateFinalScore` returns `0.8`, which is below the claimed lower bound `1`.
(The value `0.8` is exact: `1·0.30 + 1·0.25 + 1·0.25 + (10−10)·0.20 = 0.8`,
and IEEE-double evaluation of the same expression also rounds to `0.8`.) -/
theorem c2_finalScore_counterexample :
    calculateFinalScore ⟨1, 1, 1, 10⟩ "panel" = 4/5
    ∧ calculateFinalScore ⟨1, 1, 1, 10⟩ "panel" < 1 := by
  have hval : calculateFinalScore ⟨1, 1, 1, 10⟩ "panel" = 4/5 := by
    have hw : MODE_WEIGHTS "panel" = some panelWeights := rfl
    unfold calculateFinalScore
    rw [hw, Option.getD_some]
    have harg : (⟨1, 1, 1, 10⟩ : EvalScores).logic * panelWeights.logic +
        (⟨1, 1, 1, 10⟩ : EvalScores).clarity * panelWeights.clarity +
        (⟨1, 1, 1, 10⟩ : EvalScores).relevance * panelWeights.relevance +
        (10 - (⟨1, 1, 1, 10⟩ : EvalScores).emotionalBias) * panelWeights.emotionalBias
        = 4/5 := by
      norm_num [panelWeights]
    dsimp only
    rw [harg]
    unfold round1 jsRound
    rw [show (4:ℚ)/5 * 10 + 1/2 = 17/2 by norm_num]
    rw [show (⌊(17:ℚ)/2⌋ : ℤ) = 8 by norm_num [Int.floor_eq_iff]]
    norm_num
  exact ⟨hval, by rw [hval]; norm_num⟩

/-- C2 (amended): `calculateFinalScore` computes the weighted sum
`logic·w.logic + clarity·w.clarity + relevance·w.relevance +
(10 − emotionalBias)·w.emotionalBias` rounded to one decimal, using the fixed
per-mode weight table (debate .35/.20/.30/.15, classroom .20/.35/.35/.10,
panel .30/.25/.25/.20, meeting .25/.30/.35/.10, each summing to 1.0, unknown
modes falling back to debate) — as the claim states — but for dimensions in
`[1,10]` the result lies in `[0.8, 10]`, not `[1, 10]`: it drops below `1`
when the weighted sum does (the rounding keeps it at or above `0.8`). -/
theorem c2_finalScore_amended (s : EvalScores) (mode : String)
    (h1 : 1 ≤ s.logic) (h2 : s.logic ≤ 10) (h3 : 1 ≤ s.clarity) (h4 : s.clarity ≤ 10)
    (h5 : 1 ≤ s.relevance) (h6 : s.relevance ≤ 10)
    (h7 : 1 ≤ s.emotionalBias) (h8 : s.emotionalBias ≤ 10) :
    calculateFinalScore s mode = specFinalScore s mode
    ∧ debateWeights.logic + debateWeights.clarity + debateWeights.relevance +
        debateWeights.emotionalBias = 1
    ∧ classroomWeights.logic + classroomWeights.clarity + classroomWeights.relevance +
        classroomWeights.emotionalBias = 1
    ∧ panelWeights.logic + panelWeights.clarity + panelWeights.relevance +
        panelWeights.emotionalBias = 1
    ∧ meetingWeights.logic + meetingWeights.clarity + meetingWeights.relevance +
        meetingWeights.emotionalBias = 1
    ∧ 4/5 ≤ calculateFinalScore s mode
    ∧ calculateFinalScore s mode ≤ 10 := by
  have heq : calculateFinalScore s mode = specFinalScore s mode := by
    unfold calculateFinalScore specFinalScore MODE_WEIGHTS
    unfold debateWeights classroomWeights panelWeights meetingWeights
    split_ifs <;> simp_all
  have hbounds := weighted_sum_bounds s ((MODE_WEIGHTS mode).getD debateWeights)
    (modeWeights_getD_cases mode) h1 h2 h3 h4 h5 h6 h7 h8
  refine ⟨heq, by norm_num [debateWeights], by norm_num [classroomWeights],
    by norm_num [panelWeights], by norm_num [meetingWeights], ?_, ?_⟩
  · exact round1_lower hbounds.1
  · exact round1_upper hbounds.2

/-- C2 (witness): the amended theorem applied to the concrete scores
`⟨7, 6, 8, 3⟩` in classroom mode. -/
theorem c2_finalScore_witness :
    calculateFinalScore ⟨7, 6, 8, 3⟩ "classroom" = specFinalScore ⟨7, 6, 8, 3⟩ "classroom"
    ∧ 4/5 ≤ calculateFinalScore ⟨7, 6, 8, 3⟩ "classroom"
    ∧ calculateFinalScore ⟨7, 6, 8, 3⟩ "classroom" ≤ 10 := by
  have h := c2_finalScore_amended ⟨7, 6, 8, 3⟩ "classroom"
    (by norm_num) (by norm_num) (by norm_num) (by norm_num)
    (by norm_num) (by norm_num) (by norm_num) (by norm_num)
  exact ⟨h.1, h.2.2.2.2.2.1, h.2.2.2.2.2.2⟩

/-! ## Host-authorization behaviour (claim C3) -/

/-- C3 (counterexample): `start` is claimed to be a host-authorized transition,
but the route performs no host check at all: a caller presenting the secret
`"intruder"` against a room whose host secret is `"host-secret"` is not
rejected with an authorization error — the call succeeds and mutates the room
into the collecting state. -/
theorem c3_hostAuth_counterexample :
    demoWaitingRoom.hostId = "host-secret"
    ∧ startRoom demoWaitingRoom (some "intruder") =
        .ok { demoWaitingRoom with
          status := "collecting", currentRound := 1, currentTurn := some "A" } := by
  constructor
  · rfl
  · rfl

/-- C3 (amended): only `lock`/`unlock` and `remove-participant` verify the
host secret — each fails with the 403 authorization error (leaving the room
unchanged, since rejected requests write nothing back) whenever the caller's
secret differs from the room's host secret. The transitions `start`,
`next-turn`, `assign-turn` and `end` perform no host verification: they
succeed for any caller whenever their status/participant preconditions hold. -/
theorem c3_hostAuth_amended :
    (∀ (r : Room) (h : Option String) (lk : Option Bool), h ≠ some r.hostId →
        lockRoom r h lk = .error ⟨403, "Unauthorized. Host access required."⟩)
    ∧ (∀ (r : Room) (h : Option String) (pid : String), h ≠ some r.hostId →
        removeParticipant r h pid = .error ⟨403, "Unauthorized. Host access required."⟩)
    ∧ (∀ (r : Room) (h : Option String), r.turnOrder ≠ [] → (startRoom r h).isOk = true)
    ∧ (∀ (r : Room) (h : Option String), r.status = "collecting" →
        (nextTurn r h).isOk = true)
    ∧ (∀ (r : Room) (h : Option String) (pid : String), r.status = "collecting" →
        (mapGet r.participants pid).isSome = true → (assignTurn r h pid).isOk = true)
    ∧ (∀ (r : Room) (h : Option String), (endRoom r h).isOk = true) := by
  refine ⟨?_, ?_, ?_, ?_, ?_, ?_⟩
  · intro r h lk hne
    unfold lockRoom verifyHost
    rw [if_pos (by simpa using hne)]
  · intro r h pid hne
    unfold removeParticipant verifyHost
    rw [if_pos (by simpa using hne)]
  · intro r h hne
    unfold startRoom
    rw [if_neg hne]
    rfl
  · intro r h hst
    unfold nextTurn
    rw [if_neg (by simp [hst])]
    rfl
  · intro r h pid hst hp
    unfold assignTurn
    rw [if_neg (by simp [hst])]
    rw [if_neg (by simp [Option.isNone_iff_eq_none]; intro hc; rw [hc] at hp; cases hp)]
    rfl
  · intro r h
    rfl

/-- C3 (witness): the amended theorem at concrete rooms — a wrong secret is
rejected by `lock` and `remove-participant`, while `start`, `next-turn`,
`assign-turn` and `end` succeed with no secret at all. -/
theorem c3_hostAuth_witness :
    lockRoom demoWaitingRoom (some "intruder") (some true) =
        .error ⟨403, "Unauthorized. Host access required."⟩
    ∧ removeParticipant demoWaitingRoom (some "intruder") "A" =
        .error ⟨403, "Unauthorized. Host access required."⟩
    ∧ (startRoom demoWaitingRoom none).isOk = true
    ∧ (nextTurn demoCollectingRoom none).isOk = true
    ∧ (assignTurn demoCollectingRoom none "B").isOk = true
    ∧ (endRoom demoWaitingRoom none).isOk = true :=
  ⟨c3_hostAuth_amended.1 demoWaitingRoom (some "intruder") (some true) (by decide),
   c3_hostAuth_amended.2.1 demoWaitingRoom (some "intruder") "A" (by decide),
   c3_hostAuth_amended.2.2.1 demoWaitingRoom none (by decide),
   c3_hostAuth_amended.2.2.2.1 demoCollectingRoom none (by decide),
   c3_hostAuth_amended.2.2.2.2.1 demoCollectingRoom none "B" (by decide) (by decide),
   c3_hostAuth_amended.2.2.2.2.2 demoWaitingRoom none⟩

/-! ## Submit: frame conditions (claim C10) and single-flight (claim C1) -/

/-- C10: a successful submit call appends exactly one response, tagged with the
room's current round, to the submitting participant's response sequence; the
room's status, current turn, current round, turn order, raised hands, locked
flag, metadata, and every other participant's record are unchanged. -/
theorem c10_submit_frame (r : Room) (pid transcript : String) (sc : EvalScores) (r2 : Room)
    (hok : submitRoom r pid transcript sc = .ok r2) :
    r2.status = r.status ∧ r2.currentTurn = r.currentTurn ∧ r2.currentRound = r.currentRound
    ∧ r2.turnOrder = r.turnOrder ∧ r2.raisedHands = r.raisedHands ∧ r2.locked = r.locked
    ∧ r2.topic = r.topic ∧ r2.mode = r.mode ∧ r2.hostId = r.hostId
    ∧ (∃ p, mapGet r.participants pid = some p ∧
        mapGet r2.participants pid =
          some ⟨p.name, p.responses ++ [⟨r.currentRound, transcript, sc⟩]⟩)
    ∧ (∀ q, q ≠ pid → mapGet r2.participants q = mapGet r.participants q) := by
  unfold submitRoom at hok
  split at hok
  · cases hok
  · split at hok
    · cases hok
    · split at hok
      · cases hok
      · rename_i p hp
        rcases hok with ⟨⟩
        refine ⟨rfl, rfl, rfl, rfl, rfl, rfl, rfl, rfl, rfl, ⟨p, hp, ?_⟩, ?_⟩
        · exact mapGet_mapSet_self r.participants pid _
        · intro q hq
          exact mapGet_mapSet_other r.participants pid q _ hq

/-- C10 (witness): the frame theorem at Alice's concrete first submission. -/
theorem c10_submit_frame_witness :
    demoSubmittedRoom.status = demoCollectingRoom.status
    ∧ demoSubmittedRoom.currentTurn = demoCollectingRoom.currentTurn
    ∧ demoSubmittedRoom.turnOrder = demoCollectingRoom.turnOrder
    ∧ (∀ q, q ≠ "A" → mapGet demoSubmittedRoom.participants q =
        mapGet demoCollectingRoom.participants q) := by
  have h := c10_submit_frame demoCollectingRoom "A" "first point" demoScores
    demoSubmittedRoom (by decide)
  exact ⟨h.1, h.2.1, h.2.2.2.1, h.2.2.2.2.2.2.2.2.2.2⟩

/-- C1 (counterexample): with the room collecting and `currentTurn = "A"`,
Alice's first submission is accepted — and a second submission by Alice for the
same turn, before any `next-turn`, is accepted as well, because the route's
only guard compares the caller id with `currentTurn`, which does not advance on
submit. This contradicts "at most one submission is ever accepted for the same
(room, currentTurn) turn". -/
theorem c1_submit_counterexample :
    submitRoom demoCollectingRoom "A" "first point" demoScores = .ok demoSubmittedRoom
    ∧ (submitRoom demoSubmittedRoom "A" "second point" demoScores).isOk = true := by
  constructor
  · decide
  · decide

/-- C1 (amended): a submit call from any id other than the `currentTurn` holder
of a collecting room is rejected with the 400 "Not your turn" conflict error;
but the `currentTurn` holder is not limited to one submission per turn — after
any accepted submission, a further submission by the same holder (before
`next-turn`) is accepted again. -/
theorem c1_submit_amended :
    (∀ (r : Room) (pid transcript : String) (sc : EvalScores),
        r.status = "collecting" → r.currentTurn ≠ some pid →
        submitRoom r pid transcript sc = .error ⟨400, "Not your turn"⟩)
    ∧ (∀ (r r2 : Room) (pid t1 t2 : String) (sc1 sc2 : EvalScores),
        submitRoom r pid t1 sc1 = .ok r2 →
        (submitRoom r2 pid t2 sc2).isOk = true) := by
  constructor
  · intro r pid transcript sc hst hturn
    unfold submitRoom
    rw [if_neg (by simp [hst])]
    rw [if_pos hturn]
  · intro r r2 pid t1 t2 sc1 sc2 hok
    by_cases hst : r.status = "collecting"
    · by_cases hturn : r.currentTurn = some pid
      · cases hp : mapGet r.participants pid with
        | none =>
          unfold submitRoom at hok
          rw [if_neg (by simp [hst]), if_neg (by simp [hturn]), hp] at hok
          cases hok
        | some p =>
          unfold submitRoom at hok
          rw [if_neg (by simp [hst]), if_neg (by simp [hturn]), hp] at hok
          rcases hok with ⟨⟩
          unfold submitRoom
          rw [if_neg (by simp [hst]), if_neg (by simp [hturn])]
          rw [mapGet_mapSet_self r.participants pid _]
          rfl
      · unfold submitRoom at hok
        rw [if_neg (by simp [hst]), if_pos (by simp [hturn])] at hok
        cases hok
    · unfold submitRoom at hok
      rw [if_pos (by simp [hst])] at hok
      cases hok

/-- C1 (witness): the amended theorem at concrete inputs — Bob's submission
during Alice's turn is rejected, and a second submission by Alice after her
accepted first one is accepted. -/
theorem c1_submit_witness :
    submitRoom demoCollectingRoom "B" "barge in" demoScores =
        .error ⟨400, "Not your turn"⟩
    ∧ (submitRoom demoSubmittedRoom "A" "again" demoScores).isOk = true :=
  ⟨c1_submit_amended.1 demoCollectingRoom "B" "barge in" demoScores (by decide) (by decide),
   c1_submit_amended.2 demoCollectingRoom demoSubmittedRoom "A" "first point" "again"
     demoScores demoScores (by decide)⟩

/-! ## Turn-order invariant (claim C5) -/

theorem turnInv_some (r : Room) (t : String) (hct : r.currentTurn = some t)
    (h : turnInv r = true) : t ∈ r.turnOrder := by
  unfold turnInv at h
  rw [hct] at h
  exact List.mem_of_elem_eq_true h

theorem turnInv_of_mem (r : Room) :
    (∀ t, r.currentTurn = some t → t ∈ r.turnOrder) → turnInv r = true := by
  intro h
  unfold turnInv
  cases hct : r.currentTurn with
  | none => rfl
  | some t => exact List.elem_eq_true_of_mem (h t hct)

theorem turnInv_join_ok (r r2 : Room) (pid name : String)
    (hok : joinRoom r pid name = .ok r2) (h : turnInv r = true) : turnInv r2 = true := by
  unfold joinRoom at hok
  split at hok
  · cases hok
  · split at hok
    · cases hok
    · split at hok
      · cases hok
      · rcases hok with ⟨⟩
        apply turnInv_of_mem
        intro t hct
        have : t ∈ r.turnOrder := turnInv_some r t hct h
        simp [List.mem_append, this]

theorem turnInv_remove_ok (r r2 : Room) (ch : Option String) (pid : String)
    (hok : removeParticipant r ch pid = .ok r2) (h : turnInv r = true) : turnInv r2 = true := by
  unfold removeParticipant at hok
  split at hok
  · cases hok
  · split at hok
    · cases hok
    · rcases hok with ⟨⟩
      apply turnInv_of_mem
      intro t hct
      by_cases hc : r.currentTurn = some pid
      · rw [if_pos hc] at hct
        dsimp only at hct ⊢
        exact List.mem_of_mem_head? (by rw [hct]; rfl)
      · rw [if_neg hc] at hct
        have ht : t ∈ r.turnOrder := turnInv_some r t hct h
        have hne : t ≠ pid := by
          intro hcontra
          rw [hcontra] at hct
          exact hc hct
        simp [List.mem_filter, ht, hne]

theorem turnInv_next_ok (r r2 : Room) (ch : Option String)
    (hok : nextTurn r ch = .ok r2) (h : turnInv r = true) : turnInv r2 = true := by
  unfold nextTurn at hok
  split at hok
  · cases hok
  · rcases hok with ⟨⟩
    apply turnInv_of_mem
    intro t hct
    dsimp only at hct
    split at hct
    · exact List.mem_of_mem_head? (by simp [hct])
    · exact List.getElem?_mem hct

theorem turnInv_step (r : Room) (op : RoomOp) (hop : isJRN op = true)
    (h : turnInv r = true) : turnInv (applyRoomOp r op) = true := by
  cases op with
  | join pid name =>
    cases hres : joinRoom r pid name with
    | error e => simpa [applyRoomOp, roomHandler, hres] using h
    | ok r2 =>
      rw [applyRoomOp]
      rw [show roomHandler r (RoomOp.join pid name) = .ok r2 from hres]
      exact turnInv_join_ok r r2 pid name hres h
  | removeP ch pid =>
    cases hres : removeParticipant r ch pid with
    | error e => simpa [applyRoomOp, roomHandler, hres] using h
    | ok r2 =>
      rw [applyRoomOp]
      rw [show roomHandler r (RoomOp.removeP ch pid) = .ok r2 from hres]
      exact turnInv_remove_ok r r2 ch pid hres h
  | next ch =>
    cases hres : nextTurn r ch with
    | error e => simpa [applyRoomOp, roomHandler, hres] using h
    | ok r2 =>
      rw [applyRoomOp]
      rw [show roomHandler r (RoomOp.next ch) = .ok r2 from hres]
      exact turnInv_next_ok r r2 ch hres h
  | lock ch lk => cases hop
  | start ch => cases hop
  | assign ch pid => cases hop
  | raise pid => cases hop
  | lower pid => cases hop
  | finish ch => cases hop
  | submit pid t sc => cases hop

/-- C5: after any sequence of `join` / `remove-participant` / `next-turn`
operations on a room satisfying the invariant, `currentTurn` is either null or
a member of `turnOrder`; and whenever a remove-participant call removes the
participant holding `currentTurn`, the turn passes to the new head of
`turnOrder` (null when `turnOrder` became empty). -/
theorem c5_turn_invariant :
    (∀ (r : Room) (ops : List RoomOp), (∀ op ∈ ops, isJRN op = true) →
        turnInv r = true → turnInv (applyRoomOps r ops) = true)
    ∧ (∀ (r r2 : Room) (ch : Option String) (pid : String),
        removeParticipant r ch pid = .ok r2 → r.currentTurn = some pid →
        r2.currentTurn = r2.turnOrder.head?) := by
  constructor
  · intro r ops
    induction ops generalizing r with
    | nil => intro _ h; simpa [applyRoomOps] using h
    | cons op rest ih =>
      intro hops h
      have h1 : turnInv (applyRoomOp r op) = true :=
        turnInv_step r op (hops op (by simp)) h
      have := ih (applyRoomOp r op) (fun o ho => hops o (by simp [ho])) h1
      simpa [applyRoomOps] using this
  · intro r r2 ch pid hok hct
    unfold removeParticipant at hok
    split at hok
    · cases hok
    · split at hok
      · cases hok
      · rcases hok with ⟨⟩
        simp [hct]

/-- C5 (witness): the invariant theorem run on a concrete sequence (a join, a
next-turn and the removal of the current-turn holder), plus the
remove-head clause at a concrete room. -/
theorem c5_turn_invariant_witness :
    turnInv (applyRoomOps demoCollectingRoom
      [RoomOp.join "C" "Cara", RoomOp.next none,
       RoomOp.removeP (some "host-secret") "A"]) = true
    ∧ { demoCollectingRoom with
          participants := [("B", ⟨"Bob", []⟩)], turnOrder := ["B"],
          currentTurn := some "B" }.currentTurn =
        ({ demoCollectingRoom with
          participants := [("B", ⟨"Bob", []⟩)], turnOrder := ["B"],
          currentTurn := some "B" } : Room).turnOrder.head? :=
  ⟨c5_turn_invariant.1 demoCollectingRoom _ (by decide) (by decide),
   c5_turn_invariant.2 demoCollectingRoom _ (some "host-secret") "A" (by decide) (by decide)⟩

/-! ## Round invariant (claim C6) -/

theorem roomHandler_join (r : Room) (pid name : String) :
    roomHandler r (.join pid name) = joinRoom r pid name := rfl

theorem roomHandler_lock (r : Room) (ch : Option String) (lk : Option Bool) :
    roomHandler r (.lock ch lk) = lockRoom r ch lk := rfl

theorem roomHandler_removeP (r : Room) (ch : Option String) (pid : String) :
    roomHandler r (.removeP ch pid) = removeParticipant r ch pid := rfl

theorem roomHandler_start (r : Room) (ch : Option String) :
    roomHandler r (.start ch) = startRoom r ch := rfl

theorem roomHandler_next (r : Room) (ch : Option String) :
    roomHandler r (.next ch) = nextTurn r ch := rfl

theorem roomHandler_assign (r : Room) (ch : Option String) (pid : String) :
    roomHandler r (.assign ch pid) = assignTurn r ch pid := rfl

theorem roomHandler_raise (r : Room) (pid : String) :
    roomHandler r (.raise pid) = raiseHand r pid := rfl

theorem roomHandler_lower (r : Room) (pid : String) :
    roomHandler r (.lower pid) = lowerHand r pid := rfl

theorem roomHandler_finish (r : Room) (ch : Option String) :
    roomHandler r (.finish ch) = endRoom r ch := rfl

theorem roomHandler_submit (r : Room) (pid t : String) (sc : EvalScores) :
    roomHandler r (.submit pid t sc) = submitRoom r pid t sc := rfl

theorem round_join (r : Room) (pid name : String) :
    (applyRoomOp r (.join pid name)).currentRound = r.currentRound := by
  unfold applyRoomOp
  rw [roomHandler_join]
  unfold joinRoom
  split_ifs <;> rfl

theorem round_lock (r : Room) (ch : Option String) (lk : Option Bool) :
    (applyRoomOp r (.lock ch lk)).currentRound = r.currentRound := by
  unfold applyRoomOp
  rw [roomHandler_lock]
  unfold lockRoom
  split_ifs <;> rfl

theorem round_removeP (r : Room) (ch : Option String) (pid : String) :
    (applyRoomOp r (.removeP ch pid)).currentRound = r.currentRound := by
  unfold applyRoomOp
  rw [roomHandler_removeP]
  unfold removeParticipant
  by_cases hv : verifyHost r ch = true
  · rw [if_neg (by simp [hv])]
    cases hm : mapGet r.participants pid with
    | none => rfl
    | some p => rfl
  · rw [if_pos (by simp [hv])]

theorem round_assign (r : Room) (ch : Option String) (pid : String) :
    (applyRoomOp r (.assign ch pid)).currentRound = r.currentRound := by
  unfold applyRoomOp
  rw [roomHandler_assign]
  unfold assignTurn
  split_ifs <;> rfl

theorem round_raise (r : Room) (pid : String) :
    (applyRoomOp r (.raise pid)).currentRound = r.currentRound := by
  unfold applyRoomOp
  rw [roomHandler_raise]
  unfold raiseHand
  split_ifs <;> rfl

theorem round_lower (r : Room) (pid : String) :
    (applyRoomOp r (.lower pid)).currentRound = r.currentRound := by
  unfold applyRoomOp
  rw [roomHandler_lower]
  unfold lowerHand
  rfl

theorem round_finish (r : Room) (ch : Option String) :
    (applyRoomOp r (.finish ch)).currentRound = r.currentRound := by
  unfold applyRoomOp
  rw [roomHandler_finish]
  unfold endRoom
  rfl

theorem round_submit (r : Room) (pid t : String) (sc : EvalScores) :
    (applyRoomOp r (.submit pid t sc)).currentRound = r.currentRound := by
  unfold applyRoomOp
  rw [roomHandler_submit]
  unfold submitRoom
  split_ifs
  · rfl
  · rfl
  · cases mapGet r.participants pid <;> rfl

theorem round_next (r : Room) (ch : Option String) :
    (applyRoomOp r (.next ch)).currentRound =
      if nextWraps r = true then r.currentRound + 1 else r.currentRound := by
  unfold applyRoomOp
  rw [roomHandler_next]
  unfold nextTurn nextWraps
  by_cases hst : r.status = "collecting"
  · rw [if_neg (by simp [hst])]
    dsimp only
    by_cases hw : jsIndexOf r.turnOrder r.currentTurn + 1 ≥ (r.turnOrder.length : ℤ)
    · rw [if_pos (by exact decide_eq_true hw), if_pos (by simp [hst, hw])]
    · rw [if_neg (by simpa using hw), if_neg (by simp [hst, hw])]
  · rw [if_pos (by simp [hst]), if_neg (by simp [hst])]

/-- C6 (counterexample): `currentRound` can decrease. In a one-participant
room, `start` then `next-turn` reach round 2; by the claim, no further
operation may decrease `currentRound` — but a second `start` call (which has
no status precondition) resets it to 1. -/
theorem c6_round_counterexample :
    (applyRoomOps demoSoloRoom [RoomOp.start none, RoomOp.next none]).currentRound = 2
    ∧ (applyRoomOps demoSoloRoom
        [RoomOp.start none, RoomOp.next none, RoomOp.start none]).currentRound = 1 := by
  constructor
  · decide
  · decide

/-- C6 (amended): over any sequence of operations that does not include
`start`, `currentRound` never decreases, and a single such operation changes it
exactly when it is a `next-turn` that wraps past the end of `turnOrder` (then
it increments by one); `start` itself — excluded by the claim's phrase "no
other operation changes currentRound" but present in the code — sets
`currentRound` to 1 unconditionally whenever `turnOrder` is non-empty, which
decreases it on any room already past round 1. -/
theorem c6_round_amended :
    (∀ (r : Room) (op : RoomOp), isStart op = false →
        (applyRoomOp r op).currentRound =
          if (isNext op && nextWraps r) = true then r.currentRound + 1 else r.currentRound)
    ∧ (∀ (r : Room) (ops : List RoomOp), (∀ op ∈ ops, isStart op = false) →
        r.currentRound ≤ (applyRoomOps r ops).currentRound)
    ∧ (∀ (r : Room) (ch : Option String), r.turnOrder ≠ [] →
        (applyRoomOp r (.start ch)).currentRound = 1) := by
  have hstep : ∀ (r : Room) (op : RoomOp), isStart op = false →
      (applyRoomOp r op).currentRound =
        if (isNext op && nextWraps r) = true then r.currentRound + 1 else r.currentRound := by
    intro r op hop
    cases op with
    | join pid name => simpa [isNext] using round_join r pid name
    | lock ch lk => simpa [isNext] using round_lock r ch lk
    | removeP ch pid => simpa [isNext] using round_removeP r ch pid
    | start ch => cases hop
    | next ch => simpa [isNext] using round_next r ch
    | assign ch pid => simpa [isNext] using round_assign r ch pid
    | raise pid => simpa [isNext] using round_raise r pid
    | lower pid => simpa [isNext] using round_lower r pid
    | finish ch => simpa [isNext] using round_finish r ch
    | submit pid t sc => simpa [isNext] using round_submit r pid t sc
  refine ⟨hstep, ?_, ?_⟩
  · intro r ops
    induction ops generalizing r with
    | nil => intro _; simp [applyRoomOps]
    | cons op rest ih =>
      intro hops
      have h1 : r.currentRound ≤ (applyRoomOp r op).currentRound := by
        rw [hstep r op (hops op (by simp))]
        split_ifs <;> omega
      have h2 := ih (applyRoomOp r op) (fun o ho => hops o (by simp [ho]))
      calc r.currentRound ≤ (applyRoomOp r op).currentRound := h1
        _ ≤ (applyRoomOps (applyRoomOp r op) rest).currentRound := h2
        _ = (applyRoomOps r (op :: rest)).currentRound := by simp [applyRoomOps]
  · intro r ch hne
    unfold applyRoomOp roomHandler startRoom
    rw [if_neg hne]

/-- C6 (witness): the amended theorem at concrete inputs — a wrapping
`next-turn` increments the round, a non-start sequence never lowers it, and
`start` resets a round-2 room to round 1. -/
theorem c6_round_amended_witness :
    (applyRoomOp demoCollectingRoom (.next none)).currentRound =
      demoCollectingRoom.currentRound
    ∧ demoSoloRoom.currentRound ≤
        (applyRoomOps demoSoloRoom [RoomOp.raise "P", RoomOp.lower "P"]).currentRound
    ∧ (applyRoomOp demoSoloRoom (.start none)).currentRound = 1 := by
  refine ⟨?_, ?_, ?_⟩
  · have h := c6_round_amended.1 demoCollectingRoom (.next none) (by decide)
    rw [h]
    decide
  · exact c6_round_amended.2.1 demoSoloRoom [RoomOp.raise "P", RoomOp.lower "P"] (by decide)
  · exact c6_round_amended.2.2 demoSoloRoom none (by decide)

/-! ## Interview engine invariants (claims C4, C7, C9) -/

theorem assistantCount_append_user (msgs : List ChatMsg) (t : String) :
    assistantCount (msgs ++ [⟨"user", t⟩]) = assistantCount msgs := by
  simp [assistantCount, List.countP_append, List.countP_cons, List.countP_nil]

theorem assistantCount_append_assistant (msgs : List ChatMsg) (q : String) :
    assistantCount (msgs ++ [⟨"assistant", q⟩]) = assistantCount msgs + 1 := by
  simp [assistantCount, List.countP_append, List.countP_cons, List.countP_nil]

/-- The inductive invariant of interview sessions: the question counter counts
the interviewer messages of the durable transcript, never exceeds the maximum,
and the session is complete exactly at the maximum. -/
def sessionInv (s : Session) : Prop :=
  s.questionCount = assistantCount s.fullTranscript
  ∧ s.questionCount ≤ 8
  ∧ (s.status = "complete" ↔ s.questionCount = 8)

theorem sessionInv_start (role focus difficulty sys q0 : String) :
    sessionInv (interviewStart role focus difficulty sys q0) := by
  unfold interviewStart createSession addAssistantMessage sessionInv MAX_QUESTIONS
  refine ⟨?_, ?_, ?_⟩
  · norm_num [assistantCount, List.countP_cons, List.countP_nil]
  · norm_num
  · norm_num
    decide

theorem respond_core (s2 : Session) (q : String)
    (hle : s2.questionCount ≤ 7)
    (hnc : s2.status ≠ "complete")
    (hcnt : s2.questionCount = assistantCount s2.fullTranscript) :
    sessionInv (if s2.questionCount ≥ MAX_QUESTIONS then { s2 with status := "complete" }
      else addAssistantMessage s2 q) := by
  rw [if_neg (by unfold MAX_QUESTIONS; omega)]
  unfold addAssistantMessage sessionInv
  dsimp only
  split_ifs with hmax <;> dsimp only
  · unfold MAX_QUESTIONS at hmax
    refine ⟨?_, by omega, ?_⟩
    · show s2.questionCount + 1 = assistantCount (s2.fullTranscript ++ [⟨"assistant", q⟩])
      rw [assistantCount_append_assistant, ← hcnt]
    · constructor
      · intro _
        omega
      · intro _
        rfl
  · unfold MAX_QUESTIONS at hmax
    refine ⟨?_, by omega, ?_⟩
    · show s2.questionCount + 1 = assistantCount (s2.fullTranscript ++ [⟨"assistant", q⟩])
      rw [assistantCount_append_assistant, ← hcnt]
    · constructor
      · intro hcon
        exact absurd hcon hnc
      · intro h8
        exact absurd h8 (by omega)

theorem sessionInv_respond (s : Session) (t : String) (sum : Option String) (q : String)
    (h : sessionInv s) : sessionInv (interviewRespond s t sum q) := by
  unfold interviewRespond
  by_cases hc : s.status = "complete"
  · rw [if_pos hc]
    exact h
  · rw [if_neg hc]
    have hqc : s.questionCount ≠ 8 := fun he => hc (h.2.2.mpr he)
    have hle : s.questionCount ≤ 7 := by
      have := h.2.1
      omega
    apply respond_core
    · split
      · split <;> simp [applySummarization, addUserMessage] <;> omega
      · simp [addUserMessage]
        omega
    · split
      · split <;> simp [applySummarization, addUserMessage] <;> exact hc
      · simp [addUserMessage]
        exact hc
    · split
      · split <;>
          (simp only [applySummarization, addUserMessage]; rw [assistantCount_append_user];
            exact h.1)
      · simp only [addUserMessage]
        rw [assistantCount_append_user]
        exact h.1

theorem sessionInv_run (s : Session) (steps : List RespondStep) (h : sessionInv s) :
    sessionInv (runInterview s steps) := by
  induction steps generalizing s with
  | nil => simpa [runInterview] using h
  | cons st rest ih =>
    have h1 := sessionInv_respond s st.transcript st.summaryResult st.nextQuestion h
    simpa [runInterview] using
      ih (interviewRespond s st.transcript st.summaryResult st.nextQuestion) h1

/-- C4: in any interview run (a session created by the start route followed by
any sequence of respond calls), at most 8 interviewer questions are ever
recorded, and as soon as exactly 8 assistant turns are in the transcript the
session status is `complete` (so a 9th question is never generated). -/
theorem c4_interview_limit (role focus difficulty sys q0 : String) (steps : List RespondStep) :
    assistantCount (runInterview (interviewStart role focus difficulty sys q0) steps).fullTranscript ≤ 8
    ∧ (assistantCount
          (runInterview (interviewStart role focus difficulty sys q0) steps).fullTranscript = 8 →
        (runInterview (interviewStart role focus difficulty sys q0) steps).status = "complete") := by
  have hinv := sessionInv_run (interviewStart role focus difficulty sys q0) steps
    (sessionInv_start role focus difficulty sys q0)
  constructor
  · rw [← hinv.1]
    exact hinv.2.1
  · intro h8
    apply hinv.2.2.mpr
    rw [hinv.1, h8]

/-- Seven respond steps, each answered with a fresh question. -/
def demoSteps7 : List RespondStep := List.replicate 7 ⟨"an answer", none, "a question"⟩

/-- The session after the start route and seven accepted exchanges: 8 questions
asked, complete. -/
def demoCompleteSession : Session :=
  runInterview (interviewStart "Software Engineer" "mixed" "medium" "sys prompt" "Q1") demoSteps7

/-- C4 (witness): the limit theorem at a concrete 7-step run reaching exactly 8
assistant turns and the `complete` status. -/
theorem c4_interview_limit_witness :
    assistantCount demoCompleteSession.fullTranscript = 8
    ∧ demoCompleteSession.status = "complete" :=
  ⟨by decide,
   (c4_interview_limit "Software Engineer" "mixed" "medium" "sys prompt" "Q1" demoSteps7).2
     (by decide)⟩

/-- C7: the durable transcript length is the number of recorded user and
assistant messages — summarization passes never change it, so after `N`
exchanges it is exactly `2N` however many summarizations ran — and the prompt
payload is always at most 1 system message, plus at most 1 summary message,
plus at most 6 raw conversation messages. -/
theorem c7_transcript_window (s : Session) (ops : List EngineOp) (n : ℕ) :
    ((runEngineOps s ops).fullTranscript.length =
      s.fullTranscript.length + ops.countP (fun op => isUserOp op)
        + ops.countP (fun op => isAssistantOp op))
    ∧ (s.fullTranscript = [] → ops.countP (fun op => isUserOp op) = n →
        ops.countP (fun op => isAssistantOp op) = n →
        (runEngineOps s ops).fullTranscript.length = 2 * n)
    ∧ (buildMessagePayload s).length ≤ 1 + 1 + 6
    ∧ (sliceLastSix s.messages).length ≤ 6 := by
  have hmain : ∀ (ops : List EngineOp) (s : Session),
      (runEngineOps s ops).fullTranscript.length =
        s.fullTranscript.length + ops.countP (fun op => isUserOp op)
          + ops.countP (fun op => isAssistantOp op) := by
    intro ops
    induction ops with
    | nil => intro s; simp [runEngineOps]
    | cons op rest ih =>
      intro s
      have hrec := ih (applyEngineOp s op)
      simp only [runEngineOps, List.foldl_cons] at hrec ⊢
      rw [hrec]
      cases op with
      | user t =>
        simp [applyEngineOp, addUserMessage, isUserOp, isAssistantOp, List.countP_cons]
        omega
      | assistant q =>
        have hlen : (applyEngineOp s (.assistant q)).fullTranscript.length =
            s.fullTranscript.length + 1 := by
          unfold applyEngineOp addAssistantMessage
          dsimp only
          split_ifs <;> simp
        rw [hlen]
        simp [isUserOp, isAssistantOp, List.countP_cons]
        omega
      | summarize sm =>
        simp [applyEngineOp, applySummarization, isUserOp, isAssistantOp, List.countP_cons]
  have hslice : (sliceLastSix s.messages).length ≤ 6 := by
    unfold sliceLastSix
    rw [List.length_drop]
    omega
  refine ⟨hmain ops s, ?_, ?_, hslice⟩
  · intro hempty hu ha
    rw [hmain ops s, hempty, hu, ha]
    simp
    omega
  · unfold buildMessagePayload
    cases s.conversationSummary <;> simp [List.length_append] <;> omega

/-- A run of the engine's raw mutators with two full exchanges and two
summarization passes. -/
def demoEngineOps : List EngineOp :=
  [.assistant "q1", .user "a1", .summarize "sum one",
   .assistant "q2", .user "a2", .summarize "sum two"]

/-- C7 (witness): the transcript-length theorem at a concrete fresh session and
op sequence with two exchanges and two summarization passes: the durable
transcript has exactly 4 entries. -/
theorem c7_transcript_window_witness :
    (runEngineOps (createSession "Analyst" "hr" "easy" "sys") demoEngineOps).fullTranscript.length
      = 2 * 2 :=
  (c7_transcript_window (createSession "Analyst" "hr" "easy" "sys") demoEngineOps 2).2.1
    (by decide) (by decide) (by decide)

/-- C9 (counterexample): once a session is complete (here: after its 8th
question), a further answer submission is NOT recorded in the full transcript —
the respond route returns before transcribing or storing anything, leaving the
session untouched — contradicting the claim that the answer "is still accepted
and recorded in the full transcript". (No new question is generated, as the
claim also says.) -/
theorem c9_complete_counterexample :
    demoCompleteSession.status = "complete"
    ∧ (interviewRespond demoCompleteSession "one more answer" none "extra question").fullTranscript
        = demoCompleteSession.fullTranscript
    ∧ demoCompleteSession.fullTranscript.length = 15 := by
  refine ⟨by decide, by decide, by decide⟩

/-- C9 (amended): a subsequent answer submission for a complete session leaves
the session entirely unchanged — nothing is added to the full transcript and no
new interviewer question is requested or recorded; the route merely returns a
completion notice. -/
theorem c9_complete_respond (s : Session) (t : String) (sum : Option String) (q : String)
    (h : s.status = "complete") :
    interviewRespond s t sum q = s
    ∧ (interviewRespond s t sum q).fullTranscript = s.fullTranscript
    ∧ assistantCount (interviewRespond s t sum q).fullTranscript
        = assistantCount s.fullTranscript := by
  have heq : interviewRespond s t sum q = s := by
    unfold interviewRespond
    rw [if_pos h]
  exact ⟨heq, by rw [heq], by rw [heq]⟩

/-- C9 (witness): the amended theorem at the concrete completed 8-question
session. -/
theorem c9_complete_respond_witness :
    interviewRespond demoCompleteSession "one more answer" none "extra question"
      = demoCompleteSession :=
  (c9_complete_respond demoCompleteSession "one more answer" none "extra question"
    (by decide)).1

/-! ## Analytics balance score (claim C8) -/

theorem jsRound_bounds {x : ℚ} (h0 : 0 ≤ x) (h1 : x ≤ 100) :
    0 ≤ jsRound x ∧ jsRound x ≤ 100 := by
  unfold jsRound
  constructor
  · exact Int.le_floor.mpr (by push_cast; linarith)
  · by_contra hgt
    push_neg at hgt
    have h101 : (101 : ℤ) ≤ ⌊x + 1/2⌋ := by omega
    have : ((101 : ℤ) : ℚ) ≤ x + 1/2 := Int.le_floor.mp h101
    push_cast at this
    linarith

/-- A square-root oracle adequate for the concrete analytics inputs used here:
it is exact on the perfect squares `1/4` and `0`. -/
def demoSqrtFn : ℚ → ℚ := fun x => if x = 1/4 then 1/2 else 0

theorem demo_variance : varianceOf [4, 3] = 1/4 := by
  norm_num [varianceOf, meanOf, List.sum_cons, List.sum_nil]

theorem demo_mean : meanOf [4, 3] = 7/2 := by
  norm_num [meanOf, List.sum_cons, List.sum_nil]

/-- C8 (counterexample): for submission counts `[4, 3]` (mean `3.5`, population
standard deviation `0.5` — an exact square root — so coefficient of variation
`1/7`), the analytics handler returns the integer `86 = round(600/7)`, which is
not equal to the claimed exact value `100 − 100×min(cv, 1) = 600/7 ≈ 85.714`:
the claim omits the handler's `Math.round`. -/
theorem c8_balance_counterexample :
    0 ≤ demoSqrtFn (varianceOf [4, 3])
    ∧ (demoSqrtFn (varianceOf [4, 3])) ^ 2 = varianceOf [4, 3]
    ∧ analyticsBalanceScore demoSqrtFn [4, 3] = 86
    ∧ ((analyticsBalanceScore demoSqrtFn [4, 3] : ℚ) ≠
        100 - 100 * min (demoSqrtFn (varianceOf [4, 3]) / meanOf [4, 3]) 1) := by
  have hsq : demoSqrtFn (varianceOf [4, 3]) = 1/2 := by
    rw [demo_variance]
    norm_num [demoSqrtFn]
  have hmin : min (demoSqrtFn (varianceOf [4, 3]) / meanOf [4, 3]) 1 = 1/7 := by
    rw [hsq, demo_mean]
    norm_num
  have hscore : analyticsBalanceScore demoSqrtFn [4, 3] = 86 := by
    unfold analyticsBalanceScore
    rw [if_neg (by simp)]
    rw [if_pos (by constructor <;> simp)]
    dsimp only
    rw [hmin]
    unfold jsRound
    rw [show ((1:ℚ) - 1/7) * 100 + 1/2 = 1207/14 by norm_num]
    norm_num [Int.floor_eq_iff]
  refine ⟨by rw [hsq]; norm_num, by rw [hsq, demo_variance]; norm_num, hscore, ?_⟩
  rw [hscore, hmin]
  norm_num

/-- C8 (amended): the analytics balance score equals
`round(100 − 100×min(cv, 1))` — rounded to the nearest integer, which the
claim's exact formula omits — where `cv = stddev(counts)/mean(counts)`; it is
0 when total submissions is 0, it is 100 when there is at most one participant
(with a positive total) or the variation is 0, and it always lies in
`[0, 100]`. The square root is the hypothesised oracle for `Math.sqrt`. -/
theorem c8_balance_amended (sqrtFn : ℚ → ℚ) (counts : List ℕ)
    (hpos : 0 ≤ sqrtFn (varianceOf counts))
    (hsq : (sqrtFn (varianceOf counts)) ^ 2 = varianceOf counts) :
    (counts.sum = 0 → analyticsBalanceScore sqrtFn counts = 0)
    ∧ (counts.length ≤ 1 → 0 < counts.sum → analyticsBalanceScore sqrtFn counts = 100)
    ∧ (1 < counts.length → 0 < counts.sum →
        analyticsBalanceScore sqrtFn counts =
          jsRound (100 - 100 * min (sqrtFn (varianceOf counts) / meanOf counts) 1))
    ∧ (1 < counts.length → 0 < counts.sum → varianceOf counts = 0 →
        analyticsBalanceScore sqrtFn counts = 100)
    ∧ (0 ≤ analyticsBalanceScore sqrtFn counts ∧ analyticsBalanceScore sqrtFn counts ≤ 100) := by
  have hzero : counts.sum = 0 → analyticsBalanceScore sqrtFn counts = 0 := by
    intro hsum
    unfold analyticsBalanceScore
    by_cases hlen : counts.length = 0
    · rw [if_pos hlen]
    · rw [if_neg hlen]
      rw [if_neg (by rintro ⟨-, h0⟩; omega)]
      rw [if_pos hsum]
  have hone : counts.length ≤ 1 → 0 < counts.sum → analyticsBalanceScore sqrtFn counts = 100 := by
    intro hlen hsum
    have hlen0 : counts.length ≠ 0 := by
      intro hc
      rw [List.length_eq_zero.mp hc] at hsum
      simp at hsum
    unfold analyticsBalanceScore
    rw [if_neg hlen0]
    rw [if_neg (by rintro ⟨h1, -⟩; omega)]
    rw [if_neg (by omega)]
  have hmain : 1 < counts.length → 0 < counts.sum →
      analyticsBalanceScore sqrtFn counts =
        jsRound (100 - 100 * min (sqrtFn (varianceOf counts) / meanOf counts) 1) := by
    intro h1 h0
    unfold analyticsBalanceScore
    rw [if_neg (by omega)]
    rw [if_pos ⟨h1, h0⟩]
    dsimp only
    rw [show ∀ x : ℚ, (1 - x) * 100 = 100 - 100 * x from fun x => by ring]
  have hcv01 : 1 < counts.length → 0 < counts.sum →
      0 ≤ min (sqrtFn (varianceOf counts) / meanOf counts) 1
      ∧ min (sqrtFn (varianceOf counts) / meanOf counts) 1 ≤ 1 := by
    intro h1 h0
    have hmean : 0 < meanOf counts := by
      unfold meanOf
      apply div_pos
      · exact_mod_cast h0
      · have hl : 0 < counts.length := by omega
        exact_mod_cast hl
    refine ⟨le_min (div_nonneg hpos (le_of_lt hmean)) (by norm_num), min_le_right _ _⟩
  have hvar0 : 1 < counts.length → 0 < counts.sum → varianceOf counts = 0 →
      analyticsBalanceScore sqrtFn counts = 100 := by
    intro h1 h0 hv
    rw [hmain h1 h0]
    have hs0 : sqrtFn (varianceOf counts) = 0 := by
      have h2 := hsq
      rw [hv] at h2
      rw [hv]
      exact pow_eq_zero_iff (by omega : (2:ℕ) ≠ 0) |>.mp h2
    rw [hs0]
    rw [show min ((0:ℚ) / meanOf counts) 1 = 0 by rw [zero_div]; norm_num]
    unfold jsRound
    rw [show (100:ℚ) - 100 * 0 + 1/2 = 201/2 by norm_num]
    norm_num [Int.floor_eq_iff]
  refine ⟨hzero, hone, hmain, hvar0, ?_⟩
  by_cases hlen2 : 1 < counts.length
  · by_cases hsum : 0 < counts.sum
    · rw [hmain hlen2 hsum]
      rcases hcv01 hlen2 hsum with ⟨ha, hb⟩
      exact jsRound_bounds (by linarith) (by linarith)
    · have h0 : counts.sum = 0 := by omega
      rw [hzero h0]
      norm_num
  · by_cases hsum : 0 < counts.sum
    · rw [hone (by omega) hsum]
      norm_num
    · have h0 : counts.sum = 0 := by omega
      rw [hzero h0]
      norm_num

/-- C8 (witness): the amended theorem at concrete inputs — counts `[4, 3]`
follow the rounded formula, empty counts score 0, and a single participant with
submissions scores 100. -/
theorem c8_balance_amended_witness :
    analyticsBalanceScore demoSqrtFn [4, 3] =
      jsRound (100 - 100 * min (demoSqrtFn (varianceOf [4, 3]) / meanOf [4, 3]) 1)
    ∧ analyticsBalanceScore demoSqrtFn ([] : List ℕ) = 0
    ∧ analyticsBalanceScore demoSqrtFn [5] = 100 :=
  ⟨(c8_balance_amended demoSqrtFn [4, 3]
      (by rw [demo_variance]; norm_num [demoSqrtFn])
      (by rw [demo_variance]; norm_num [demoSqrtFn])).2.2.1 (by simp) (by simp),
   (c8_balance_amended demoSqrtFn []
      (by norm_num [varianceOf, demoSqrtFn])
      (by norm_num [varianceOf, demoSqrtFn])).1 (by simp),
   (c8_balance_amended demoSqrtFn [5]
      (by norm_num [varianceOf, meanOf, demoSqrtFn, List.sum_cons, List.sum_nil])
      (by norm_num [varianceOf, meanOf, demoSqrtFn, List.sum_cons, List.sum_nil])).2.1
     (by simp) (by simp)⟩

end DebAItor
